import Mathlib

set_option maxHeartbeats 1000000

namespace Dumper

/- Shallow embedding of the `dumper` CLI (src/main.go).  Strings are modelled as
`List Char`; Go `int` is modelled as `Int`. -/

/-- ASCII lowering of a single character, as `strings.ToLower` performs on the
ASCII database-type names relevant here. -/
def toLowerChar (c : Char) : Char :=
  if 65 ≤ c.toNat ∧ c.toNat ≤ 90 then Char.ofNat (c.toNat + 32) else c

/-- Go `strings.ToLower`, modelled over `List Char` (ASCII range). -/
def goToLower (s : List Char) : List Char := s.map toLowerChar

/-- Whitespace characters removed by Go `strings.TrimSpace` (the ASCII subset of
Unicode white space, which is all that the CLI flags involve). -/
def isSpaceChar (c : Char) : Bool :=
  c == ' ' || c == '\t' || c == '\n' || c == '\r' || c.toNat == 11 || c.toNat == 12

/-- Go `strings.TrimSpace`: drop leading and trailing whitespace. -/
def trimSpace (s : List Char) : List Char :=
  ((s.dropWhile isSpaceChar).reverse.dropWhile isSpaceChar).reverse

/-- Go `strings.Split(s, ",")`: split on every comma; the empty string yields one
empty piece. -/
def splitComma : List Char → List (List Char)
  | [] => [[]]
  | c :: rest =>
    if c = ',' then [] :: splitComma rest
    else
      match splitComma rest with
      | [] => [[c]]
      | p :: ps => (c :: p) :: ps

/-- The accumulator loop of `filterExcludeTables` (src/main.go:149-154): append
each trimmed piece that is non-empty. -/
def filterLoop (result : List (List Char)) : List (List Char) → List (List Char)
  | [] => result
  | t :: ts =>
    if trimSpace t ≠ [] then filterLoop (result ++ [trimSpace t]) ts
    else filterLoop result ts

/-- `filterExcludeTables` (src/main.go:145-156): returns nil on the empty string,
otherwise splits on commas and keeps the trimmed non-empty pieces. -/
def filterExcludeTables (exclude : List Char) : List (List Char) :=
  if exclude = [] then [] else filterLoop [] (splitComma exclude)

/-- The validation errors `validateInputs` can produce, in the order the checks
appear in src/main.go:119-142. -/
inductive ValidationError
  | invalidDbType
  | invalidBatchSize
  | invalidMaxWorkers
  | emptyOutputFile
deriving DecidableEq

/-- The keys of the `validTypes` map in src/main.go:121. -/
def validTypes : List (List Char) := ["postgres".data, "mysql".data, "mongodb".data]

/-- The package-level flag variables of src/main.go:16-23. -/
structure Flags where
  dbType : List Char
  connStr : List Char
  outputFile : List Char
  compress : Bool
  batchSize : Int
  maxWorkers : Int
  excludeTables : List Char

/-- `validateInputs` (src/main.go:119-142): checks dbType (case-insensitively),
batchSize, maxWorkers and the output path, in that order. -/
def validateInputs (f : Flags) : Option ValidationError :=
  if goToLower f.dbType ∉ validTypes then some ValidationError.invalidDbType
  else if f.batchSize < 1 then some ValidationError.invalidBatchSize
  else if f.maxWorkers < 1 ∨ f.maxWorkers > 50 then some ValidationError.invalidMaxWorkers
  else if f.outputFile = [] then some ValidationError.emptyOutputFile
  else none

/-- `types.BackupOptions` as constructed in src/main.go:76-81. -/
structure BackupOptions where
  compress : Bool
  batchSize : Int
  maxWorkers : Int
  exclude : List (List Char)
deriving DecidableEq

/-- One invocation of `dump_util.DumpDatabase` with its arguments
(src/main.go:83). -/
structure DumpCall where
  dbType : List Char
  connStr : List Char
  outputFile : List Char
  opts : BackupOptions
deriving DecidableEq

/-- The `BackupOptions` literal built from the flags in src/main.go:76-81. -/
def mkOptions (f : Flags) : BackupOptions :=
  { compress := f.compress, batchSize := f.batchSize, maxWorkers := f.maxWorkers,
    exclude := filterExcludeTables f.excludeTables }

/-- `rootCmd.Run` (src/main.go:69-87): on a validation error the process exits
via `log.Fatalf` and `DumpDatabase` is never reached; otherwise `DumpDatabase`
is called exactly once with the flag values.  The second component records the
list of `DumpDatabase` calls made. -/
def rootCmdRun (f : Flags) : Option ValidationError × List DumpCall :=
  match validateInputs f with
  | some e => (some e, [])
  | none =>
      (none, [{ dbType := f.dbType, connStr := f.connStr, outputFile := f.outputFile,
                opts := mkOptions f }])

lemma validateInputs_none_iff (f : Flags) :
    validateInputs f = none ↔
      (1 ≤ f.batchSize ∧ (1 ≤ f.maxWorkers ∧ f.maxWorkers ≤ 50) ∧
        f.outputFile ≠ [] ∧ goToLower f.dbType ∈ validTypes) := by
  unfold validateInputs
  split_ifs with h1 h2 h3 h4
  · simp only [false_iff]
    rintro ⟨hb, -, -, -⟩
    omega
  · simp only [false_iff]
    rintro ⟨-, hw, -, -⟩
    omega
  · simp only [false_iff]
    rintro ⟨-, -, ho, -⟩
    exact ho h4
  · simp only [true_iff]
    push_neg at h3
    exact ⟨by omega, ⟨by omega, by omega⟩, h4, h1⟩
  · simp only [false_iff]
    rintro ⟨-, -, -, hm⟩
    exact h1 hm

lemma rootCmdRun_of_valid (f : Flags) (h : validateInputs f = none) :
    rootCmdRun f = (none, [{ dbType := f.dbType, connStr := f.connStr,
                             outputFile := f.outputFile, opts := mkOptions f }]) := by
  unfold rootCmdRun
  rw [h]

lemma filterLoop_eq (ts : List (List Char)) (acc : List (List Char)) :
    filterLoop acc ts = acc ++ (ts.map trimSpace).filter (fun t => decide (t ≠ [])) := by
  induction ts generalizing acc with
  | nil => simp [filterLoop]
  | cons t ts ih =>
    by_cases h : trimSpace t = []
    · simp [filterLoop, h, ih]
    · simp [filterLoop, h, ih]

/-- C1: `validateInputs` returns `nil` exactly when batchSize ≥ 1, maxWorkers lies
in [1,50], the output path is non-empty and the database type is valid; and
whenever it returns `nil` the run goes on to build `BackupOptions` from exactly
the flag values and calls `DumpDatabase` with them. -/
theorem validateInputs_complete (f : Flags) :
    (validateInputs f = none ↔
      (1 ≤ f.batchSize ∧ (1 ≤ f.maxWorkers ∧ f.maxWorkers ≤ 50) ∧
        f.outputFile ≠ [] ∧ goToLower f.dbType ∈ validTypes)) ∧
    (validateInputs f = none →
      rootCmdRun f = (none, [{ dbType := f.dbType, connStr := f.connStr,
                               outputFile := f.outputFile, opts := mkOptions f }])) :=
  ⟨validateInputs_none_iff f, rootCmdRun_of_valid f⟩

/-- The flag assignment used as the concrete witness for C1: all four constraints
hold (defaults of src/main.go plus a padded exclude list). -/
def goodFlags : Flags :=
  { dbType := "postgres".data, connStr := "conn".data, outputFile := "backup.sql".data,
    compress := false, batchSize := 5000, maxWorkers := 5,
    excludeTables := " users , ,temp".data }

theorem validateInputs_complete_witness :
    validateInputs goodFlags = none ∧
    rootCmdRun goodFlags = (none, [{ dbType := goodFlags.dbType,
                                     connStr := goodFlags.connStr,
                                     outputFile := goodFlags.outputFile,
                                     opts := mkOptions goodFlags }]) := by
  have h := validateInputs_complete goodFlags
  have hnone : validateInputs goodFlags = none := h.1.mpr (by decide)
  exact ⟨hnone, h.2 hnone⟩

/-- C2: an unrecognised database type is rejected during validation with the
configuration error and `DumpDatabase` is never invoked; in every run
`DumpDatabase` is called at most once, and only when validation returned `nil`. -/
theorem invalid_dbType_fails_fast (f : Flags) :
    (goToLower f.dbType ∉ validTypes →
      validateInputs f = some ValidationError.invalidDbType ∧ (rootCmdRun f).2 = []) ∧
    (rootCmdRun f).2.length ≤ 1 ∧
    ((rootCmdRun f).2 ≠ [] → validateInputs f = none) := by
  refine ⟨fun h => ?_, ?_, ?_⟩
  · have hv : validateInputs f = some ValidationError.invalidDbType := by
      unfold validateInputs
      rw [if_pos h]
    refine ⟨hv, ?_⟩
    unfold rootCmdRun
    rw [hv]
  · rcases hv : validateInputs f with _ | e <;> simp [rootCmdRun, hv]
  · intro hne
    rcases hv : validateInputs f with _ | e
    · rfl
    · exact absurd (by simp [rootCmdRun, hv]) hne

/-- The flag assignment used as the concrete witness for C2: an unsupported
database type. -/
def badFlags : Flags :=
  { dbType := "sqlite".data, connStr := "conn".data, outputFile := "backup.sql".data,
    compress := false, batchSize := 5000, maxWorkers := 5, excludeTables := [] }

theorem invalid_dbType_fails_fast_witness :
    validateInputs badFlags = some ValidationError.invalidDbType ∧
    (rootCmdRun badFlags).2 = [] :=
  (invalid_dbType_fails_fast badFlags).1 (by decide)

/-- C9: `filterExcludeTables` splits its argument on commas, trims whitespace
from each piece and drops the pieces that trim to nothing; the empty string
yields no exclusions, and a padded entry is forwarded trimmed. -/
theorem filterExcludeTables_spec :
    (∀ s : List Char,
      filterExcludeTables s = ((splitComma s).map trimSpace).filter (fun t => decide (t ≠ []))) ∧
    filterExcludeTables [] = [] ∧
    filterExcludeTables (" users ".data) = ["users".data] := by
  refine ⟨fun s => ?_, by decide, by decide⟩
  unfold filterExcludeTables
  by_cases h : s = []
  · subst h
    simp [splitComma, trimSpace]
  · rw [if_neg h, filterLoop_eq]
    rfl

/-- C10: database-type validation is case-insensitive, yet the original string
is forwarded verbatim to `DumpDatabase`. -/
theorem dbType_case_insensitive (f : Flags)
    (hty : goToLower f.dbType ∈ validTypes)
    (hb : 1 ≤ f.batchSize) (hw : 1 ≤ f.maxWorkers ∧ f.maxWorkers ≤ 50)
    (ho : f.outputFile ≠ []) :
    validateInputs f = none ∧
    (rootCmdRun f).2 = [{ dbType := f.dbType, connStr := f.connStr,
                          outputFile := f.outputFile, opts := mkOptions f }] := by
  have hnone : validateInputs f = none :=
    (validateInputs_none_iff f).mpr ⟨hb, hw, ho, hty⟩
  exact ⟨hnone, by rw [rootCmdRun_of_valid f hnone]⟩

/-- The flag assignment used as the concrete witness for C10: a mixed-case
database type that is not literally one of the three lowercase names. -/
def mixedFlags : Flags :=
  { dbType := "Postgres".data, connStr := "conn".data, outputFile := "out.sql".data,
    compress := true, batchSize := 100, maxWorkers := 8, excludeTables := [] }

theorem dbType_case_insensitive_witness :
    mixedFlags.dbType ∉ validTypes ∧
    validateInputs mixedFlags = none ∧
    (rootCmdRun mixedFlags).2 = [{ dbType := "Postgres".data, connStr := "conn".data,
                                   outputFile := "out.sql".data, opts := mkOptions mixedFlags }] := by
  have h := dbType_case_insensitive mixedFlags (by decide) (by decide) (by decide) (by decide)
  exact ⟨by decide, h.1, h.2⟩

/- The dump engine (`dump_util.DumpDatabase`) is not part of this repository's
sources; only its caller is.  The definitions below are therefore modelled from
the specification's description of the engine. -/

/-- Modelled from the spec: `ListUnits` of the Source Adapter returns the
dumpable units excluding the names present in the caller-supplied exclusion
set, where exclusion is a case-sensitive exact match on the unit name
(`name ∈ exclude`).  The engine implementing this is not under src/. -/
def attemptedUnits (U E : List (List Char)) : List (List Char) :=
  U.filter (fun n => decide (n ∉ E))

/-- Modelled from the spec: the Batch Reader's fetch loop, which repeatedly
takes the next at-most-`b` records of a unit until end-of-unit.  `fuel` is an
upper bound on the number of iterations (the record count suffices when
`1 ≤ b`).  The engine implementing this is not under src/. -/
def fetchChunks (b : Nat) : Nat → List α → List (List α)
  | 0, _ => []
  | _ + 1, [] => []
  | fuel + 1, r :: rs => ((r :: rs).take b) :: fetchChunks b fuel ((r :: rs).drop b)

/-- Modelled from the spec: the batches the Batch Reader produces for one unit
of records `rows` with batch size `b`. -/
def fetchBatches (b : Nat) (rows : List α) : List (List α) :=
  fetchChunks b rows.length rows

/-- Modelled from the spec: the Batch Reader assigns monotonically increasing
`sequenceIndex` values starting at 0 to the batches of a unit. -/
def readBatches (b : Nat) (rows : List α) : List (Nat × List α) :=
  (fetchBatches b rows).enum

lemma fetchChunks_nil (b fuel : Nat) : fetchChunks b fuel ([] : List α) = [] := by
  cases fuel <;> rfl

lemma fetchChunks_flatten (b : Nat) (hb : 1 ≤ b) (fuel : Nat) :
    ∀ rows : List α, rows.length ≤ fuel → (fetchChunks b fuel rows).flatten = rows := by
  induction fuel with
  | zero =>
    intro rows hf
    interval_cases h : rows.length
    · rw [List.length_eq_zero] at h
      simp [h, fetchChunks]
  | succ fuel ih =>
    intro rows hf
    cases rows with
    | nil => simp [fetchChunks]
    | cons r rs =>
      have hlen : ((r :: rs).drop b).length ≤ fuel := by
        simp only [List.length_drop, List.length_cons] at hf ⊢
        omega
      simp [fetchChunks, ih _ hlen, List.take_append_drop]

lemma fetchChunks_length (b : Nat) (hb : 1 ≤ b) (fuel : Nat) :
    ∀ rows : List α, rows.length ≤ fuel →
      (fetchChunks b fuel rows).length = (rows.length + b - 1) / b := by
  induction fuel with
  | zero =>
    intro rows hf
    have h : rows = [] := List.length_eq_zero.mp (by omega)
    subst h
    simp [fetchChunks, Nat.div_eq_of_lt (by omega : b - 1 < b)]
  | succ fuel ih =>
    intro rows hf
    cases rows with
    | nil => simp [fetchChunks, Nat.div_eq_of_lt (by omega : b - 1 < b)]
    | cons r rs =>
      have hlen : ((r :: rs).drop b).length ≤ fuel := by
        simp only [List.length_drop, List.length_cons] at hf ⊢
        omega
      have ihd := ih _ hlen
      simp only [fetchChunks, List.length_cons, List.length_drop] at ihd ⊢
      rw [ihd]
      rcases le_or_lt b (rs.length + 1) with h | h
      · have e1 : rs.length + 1 + b - 1 = (rs.length + 1 - b + b - 1) + b := by omega
        rw [e1, Nat.add_div_right _ (by omega)]
      · have e1 : rs.length + 1 - b = 0 := by omega
        have e2 : rs.length + 1 + b - 1 = (rs.length + 1 - 1) + b := by omega
        rw [e1, e2, Nat.add_div_right _ (by omega),
          Nat.div_eq_of_lt (by omega : rs.length + 1 - 1 < b),
          Nat.div_eq_of_lt (by omega : 0 + b - 1 < b)]

lemma fetchChunks_mem_length (b fuel : Nat) (rows : List α) :
    ∀ c ∈ fetchChunks b fuel rows, c.length ≤ b := by
  induction fuel generalizing rows with
  | zero =>
    intro c hc
    simp [fetchChunks] at hc
  | succ fuel ih =>
    intro c hc
    cases rows with
    | nil => simp [fetchChunks] at hc
    | cons r rs =>
      simp only [fetchChunks, List.mem_cons] at hc
      rcases hc with hc | hc
      · subst hc
        simp only [List.length_take]
        omega
      · exact ih _ c hc

lemma fetchChunks_getD_length (b : Nat) (hb : 1 ≤ b) (fuel : Nat) :
    ∀ (rows : List α) (i : Nat), rows.length ≤ fuel →
      i + 1 < (fetchChunks b fuel rows).length →
      ((fetchChunks b fuel rows).getD i []).length = b := by
  induction fuel with
  | zero =>
    intro rows i hf hi
    simp [fetchChunks] at hi
  | succ fuel ih =>
    intro rows i hf hi
    cases rows with
    | nil => simp [fetchChunks] at hi
    | cons r rs =>
      simp only [fetchChunks, List.length_cons] at hi ⊢
      cases i with
      | zero =>
        have hrest : fetchChunks b fuel ((r :: rs).drop b) ≠ [] := by
          intro he
          rw [he] at hi
          simp at hi
        have hdrop : (r :: rs).drop b ≠ [] := by
          intro he
          rw [he, fetchChunks_nil] at hrest
          exact hrest rfl
        have hblen : b < (r :: rs).length := by
          by_contra hc
          exact hdrop (List.drop_eq_nil_iff.mpr (by omega))
        simp only [List.getD_cons_zero, List.length_take, List.length_cons] at hblen ⊢
        omega
      | succ i =>
        have hlen : ((r :: rs).drop b).length ≤ fuel := by
          simp only [List.length_drop, List.length_cons] at hf ⊢
          omega
        simp only [List.getD_cons_succ]
        exact ih _ i hlen (by omega)

/-- C5: for every batch size `b ≥ 1`, a unit of `R` records is partitioned into
exactly `⌈R / b⌉` batches, each of at most `b` records, and every batch except
possibly the last has exactly `b` records. -/
theorem batch_partition (b : Nat) (rows : List Nat) (hb : 1 ≤ b) :
    (fetchBatches b rows).length = (rows.length + b - 1) / b ∧
    (∀ c ∈ fetchBatches b rows, c.length ≤ b) ∧
    (∀ i : Nat, i + 1 < (fetchBatches b rows).length →
      ((fetchBatches b rows).getD i []).length = b) := by
  refine ⟨fetchChunks_length b hb _ rows le_rfl, fetchChunks_mem_length b _ rows, ?_⟩
  intro i hi
  exact fetchChunks_getD_length b hb _ rows i le_rfl hi

theorem batch_partition_witness :
    (fetchBatches 4 (List.range 10)).length = (10 + 4 - 1) / 4 ∧
    ((fetchBatches 4 (List.range 10)).getD 0 []).length = 4 ∧
    (fetchBatches 4 (List.range 10)).map List.length = [4, 4, 2] ∧
    (fetchBatches 4 (List.range 5)).map List.length = [4, 1] :=
  ⟨(batch_partition 4 (List.range 10) (by decide)).1,
   (batch_partition 4 (List.range 10) (by decide)).2.2 0 (by decide),
   by decide, by decide⟩

/-- C4: for a unit that succeeds, the `sequenceIndex` values attached to its
batches are exactly `0 .. n-1` in order, with no gaps and no repeats, and
concatenating the batches back reconstructs the unit's records in their
original order. -/
theorem sequence_index_exact (b : Nat) (rows : List Nat) (hb : 1 ≤ b) :
    (readBatches b rows).map Prod.fst = List.range (fetchBatches b rows).length ∧
    ((readBatches b rows).map Prod.snd).flatten = rows := by
  constructor
  · exact List.enum_map_fst _
  · rw [readBatches, List.enum_map_snd]
    exact fetchChunks_flatten b hb _ rows le_rfl

theorem sequence_index_exact_witness :
    ((readBatches 4 (List.range 10)).map Prod.fst
        = List.range (fetchBatches 4 (List.range 10)).length ∧
      ((readBatches 4 (List.range 10)).map Prod.snd).flatten = List.range 10) ∧
    (readBatches 4 (List.range 10)).map Prod.fst = [0, 1, 2] :=
  ⟨sequence_index_exact 4 (List.range 10) (by decide), by decide⟩

/-- C3: the attempted units are exactly `U \ E`, membership in the exclusion
set being case-sensitive exact string equality, and with `U` duplicate-free
every unit of `U \ E` is attempted exactly once. -/
theorem attempted_units_exact (U E : List (List Char)) (hU : U.Nodup) :
    (∀ n : List Char, n ∈ attemptedUnits U E ↔ n ∈ U ∧ n ∉ E) ∧
    (attemptedUnits U E).Nodup := by
  constructor
  · intro n
    simp [attemptedUnits]
  · exact hU.filter _

theorem attempted_units_exact_witness :
    attemptedUnits ["users".data, "users_old".data] ["users".data] = ["users_old".data] ∧
    ("users_old".data ∈ ["users".data, "users_old".data] ∧ "users_old".data ∉ ["users".data]) ∧
    (attemptedUnits ["users".data, "users_old".data] ["users".data]).Nodup :=
  ⟨by decide,
   (attempted_units_exact ["users".data, "users_old".data] ["users".data]
      (by decide)).1 ("users_old".data) |>.mp (by decide),
   (attempted_units_exact ["users".data, "users_old".data] ["users".data]
      (by decide)).2⟩

/-- Modelled from the spec: the ways one unit's processing can end — success,
a cursor-open failure, a mid-stream read failure or a serialization failure
(the latter two after some number of batches). -/
inductive UnitOutcome
  | ok
  | openFail
  | readFail (afterBatches : Nat)
  | serializeFail (afterBatches : Nat)
deriving DecidableEq

/-- Modelled from the spec: one dumpable unit together with its records and the
outcome its processing would have on this run. -/
structure UnitSpec where
  name : List Char
  rows : List (List Char)
  outcome : UnitOutcome
deriving DecidableEq

/-- Modelled from the spec: the Serializer's complete representation of one
unit — a unit-open marker, one fragment per batch, and a unit-close marker. -/
def unitFragments (b : Nat) (u : UnitSpec) : List (List Char) :=
  (('<' :: u.name) :: (fetchBatches b u.rows).map List.flatten) ++ [('>' :: u.name)]

/-- Terminal states of the Orchestrator's state machine. -/
inductive RunStatus
  | done
  | failed
deriving DecidableEq

/-- The fatal error relevant to the Output Writer. -/
inductive FatalError
  | writeError
deriving DecidableEq

/-- Modelled from the spec: the aggregate result of one run, including the
fragments the Output Writer finalized into the output file. -/
structure DumpResult where
  unitsProcessed : Nat
  unitsFailed : List (List Char)
  fragments : List (List Char)
  status : RunStatus
  fatal : Option FatalError
deriving DecidableEq

/-- Modelled from the spec: one engine run over an already-filtered unit list.
Unit-scoped failures are recorded in `unitsFailed` and contribute no fragments
(the Writer discards a failed unit's buffered fragments); the run still ends
`done`.  `sinkFailAt = some j` injects a fatal sink failure while the `j`-th
successful unit (0-based) is being written: the units flushed before it are
preserved, the in-progress unit leaves no fragment, and the run ends `failed`
with a `writeError`.  The engine implementing this is not under src/. -/
def engineRun (b : Nat) (units : List UnitSpec) (sinkFailAt : Option Nat) : DumpResult :=
  match sinkFailAt with
  | some j =>
    if j < (units.filter (fun u => decide (u.outcome = UnitOutcome.ok))).length then
      { unitsProcessed := j
        unitsFailed := (units.filter (fun u => decide (¬ u.outcome = UnitOutcome.ok))).map UnitSpec.name
        fragments := (((units.filter (fun u => decide (u.outcome = UnitOutcome.ok))).take j).map
          (unitFragments b)).flatten
        status := RunStatus.failed
        fatal := some FatalError.writeError }
    else
      { unitsProcessed := (units.filter (fun u => decide (u.outcome = UnitOutcome.ok))).length
        unitsFailed := (units.filter (fun u => decide (¬ u.outcome = UnitOutcome.ok))).map UnitSpec.name
        fragments := ((units.filter (fun u => decide (u.outcome = UnitOutcome.ok))).map
          (unitFragments b)).flatten
        status := RunStatus.done
        fatal := none }
  | none =>
      { unitsProcessed := (units.filter (fun u => decide (u.outcome = UnitOutcome.ok))).length
        unitsFailed := (units.filter (fun u => decide (¬ u.outcome = UnitOutcome.ok))).map UnitSpec.name
        fragments := ((units.filter (fun u => decide (u.outcome = UnitOutcome.ok))).map
          (unitFragments b)).flatten
        status := RunStatus.done
        fatal := none }

/-- Injecting an outcome on the units named `x`, leaving all others untouched. -/
def setOutcome (x : List Char) (e : UnitOutcome) (units : List UnitSpec) : List UnitSpec :=
  units.map (fun u => if u.name = x then { u with outcome := e } else u)

lemma setOutcome_filter_ok (x : List Char) (e : UnitOutcome) (he : e ≠ UnitOutcome.ok)
    (units : List UnitSpec) (hall : ∀ u ∈ units, u.outcome = UnitOutcome.ok) :
    (setOutcome x e units).filter (fun u => decide (u.outcome = UnitOutcome.ok))
      = units.filter (fun u => decide (u.name ≠ x)) := by
  induction units with
  | nil => rfl
  | cons u us ih =>
    have hu : u.outcome = UnitOutcome.ok := hall u (List.mem_cons_self u us)
    have hus : ∀ v ∈ us, v.outcome = UnitOutcome.ok :=
      fun v hv => hall v (List.mem_cons_of_mem u hv)
    have ih' := ih hus
    simp only [setOutcome] at ih' ⊢
    by_cases hx : u.name = x
    · simp [List.filter_cons, hx, he, ih']
    · simp [List.filter_cons, hx, hu, ih']

lemma setOutcome_failed_mem (x : List Char) (e : UnitOutcome) (he : e ≠ UnitOutcome.ok)
    (units : List UnitSpec) (hx : ∃ u ∈ units, u.name = x) :
    x ∈ ((setOutcome x e units).filter
        (fun u => decide (¬ u.outcome = UnitOutcome.ok))).map UnitSpec.name := by
  obtain ⟨u, hu, hname⟩ := hx
  have hmem : ({ u with outcome := e } : UnitSpec) ∈ setOutcome x e units := by
    unfold setOutcome
    refine List.mem_map.mpr ⟨u, hu, ?_⟩
    rw [if_pos hname]
  refine List.mem_map.mpr ⟨{ u with outcome := e },
    List.mem_filter.mpr ⟨hmem, by simp [he]⟩, hname⟩

/-- C6: injecting a unit-scoped failure on unit `x` leaves the output of every
other unit exactly as in the failure-free run, removes `x` entirely from the
output, records `x` in `unitsFailed`, and the run still completes `done`. -/
theorem failure_isolation (b : Nat) (units : List UnitSpec) (x : List Char) (e : UnitOutcome)
    (hall : ∀ u ∈ units, u.outcome = UnitOutcome.ok)
    (he : e ≠ UnitOutcome.ok)
    (hx : ∃ u ∈ units, u.name = x) :
    (engineRun b (setOutcome x e units) none).fragments
      = ((units.filter (fun u => decide (u.name ≠ x))).map (unitFragments b)).flatten ∧
    x ∈ (engineRun b (setOutcome x e units) none).unitsFailed ∧
    (engineRun b (setOutcome x e units) none).status = RunStatus.done ∧
    (engineRun b units none).fragments = (units.map (unitFragments b)).flatten := by
  refine ⟨?_, ?_, rfl, ?_⟩
  · show (((setOutcome x e units).filter
        (fun u => decide (u.outcome = UnitOutcome.ok))).map (unitFragments b)).flatten = _
    rw [setOutcome_filter_ok x e he units hall]
  · exact setOutcome_failed_mem x e he units hx
  · show ((units.filter (fun u => decide (u.outcome = UnitOutcome.ok))).map
        (unitFragments b)).flatten = _
    congr 1
    rw [List.filter_eq_self.mpr]
    intro u hu
    simp [hall u hu]

/-- Concrete units for the failure-isolation and write-atomicity witnesses. -/
def unitA : UnitSpec :=
  { name := "A".data, rows := ["a1".data, "a2".data, "a3".data], outcome := UnitOutcome.ok }

def unitB : UnitSpec :=
  { name := "B".data, rows := ["b1".data], outcome := UnitOutcome.ok }

def unitC : UnitSpec :=
  { name := "C".data, rows := ["c1".data, "c2".data], outcome := UnitOutcome.ok }

theorem failure_isolation_witness :
    (engineRun 2 (setOutcome ("B".data) UnitOutcome.openFail [unitA, unitB, unitC]) none).fragments
      = (([unitA, unitB, unitC].filter (fun u => decide (u.name ≠ "B".data))).map
          (unitFragments 2)).flatten ∧
    "B".data ∈ (engineRun 2 (setOutcome ("B".data) UnitOutcome.openFail
      [unitA, unitB, unitC]) none).unitsFailed ∧
    (engineRun 2 (setOutcome ("B".data) UnitOutcome.openFail [unitA, unitB, unitC])
      none).status = RunStatus.done ∧
    (engineRun 2 [unitA, unitB, unitC] none).fragments
      = ([unitA, unitB, unitC].map (unitFragments 2)).flatten :=
  failure_isolation 2 [unitA, unitB, unitC] ("B".data) UnitOutcome.openFail
    (by decide) (by decide) (by decide)

/-- C7: a fatal sink failure while the `j`-th successful unit is being written
ends the run `failed` with a `writeError`; the finalized file holds exactly the
complete representations of the units flushed before the failure — a prefix of
the failure-free output — and no fragment of the in-progress unit. -/
theorem write_atomicity (b : Nat) (units : List UnitSpec) (j : Nat)
    (hj : j < (units.filter (fun u => decide (u.outcome = UnitOutcome.ok))).length) :
    (engineRun b units (some j)).status = RunStatus.failed ∧
    (engineRun b units (some j)).fatal = some FatalError.writeError ∧
    (engineRun b units (some j)).fragments
      = (((units.filter (fun u => decide (u.outcome = UnitOutcome.ok))).take j).map
          (unitFragments b)).flatten ∧
    (engineRun b units (some j)).fragments
        ++ (((units.filter (fun u => decide (u.outcome = UnitOutcome.ok))).drop j).map
          (unitFragments b)).flatten
      = (engineRun b units none).fragments := by
  refine ⟨?_, ?_, ?_, ?_⟩
  · simp [engineRun, if_pos hj]
  · simp [engineRun, if_pos hj]
  · simp [engineRun, if_pos hj]
  · simp only [engineRun, if_pos hj]
    rw [← List.flatten_append, ← List.map_append, List.take_append_drop]

theorem write_atomicity_witness :
    (engineRun 2 [unitA, unitC] (some 1)).status = RunStatus.failed ∧
    (engineRun 2 [unitA, unitC] (some 1)).fatal = some FatalError.writeError ∧
    (engineRun 2 [unitA, unitC] (some 1)).fragments
      = ((([unitA, unitC].filter (fun u => decide (u.outcome = UnitOutcome.ok))).take 1).map
          (unitFragments 2)).flatten ∧
    (engineRun 2 [unitA, unitC] (some 1)).fragments
        ++ ((([unitA, unitC].filter (fun u => decide (u.outcome = UnitOutcome.ok))).drop 1).map
          (unitFragments 2)).flatten
      = (engineRun 2 [unitA, unitC] none).fragments :=
  write_atomicity 2 [unitA, unitC] 1 (by decide)

/-- Modelled from the spec: gzip streaming compression.  The gzip byte format
comes from an external library, so the compressor is modelled as a run-length
stream coder; this is faithful to the one property the spec relies on, namely
that decoding the compressed stream returns exactly the bytes that were fed
in. -/
def rleEncode : List Nat → List (Nat × Nat)
  | [] => []
  | c :: rest =>
    match rleEncode rest with
    | [] => [(c, 1)]
    | (d, n) :: t => if c = d then (c, n + 1) :: t else (c, 1) :: (d, n) :: t

/-- Decoder for the run-length stream coder. -/
def rleDecode : List (Nat × Nat) → List Nat
  | [] => []
  | (c, n) :: t => List.replicate n c ++ rleDecode t

/-- Serialize the run list into a flat byte stream. -/
def flattenRuns : List (Nat × Nat) → List Nat
  | [] => []
  | (c, n) :: t => c :: n :: flattenRuns t

/-- Parse the flat byte stream back into runs. -/
def parseRuns : List Nat → List (Nat × Nat)
  | c :: n :: rest => (c, n) :: parseRuns rest
  | _ => []

/-- The compression pipe applied by the Output Writer when `compress=true`. -/
def gzipCompress (bs : List Nat) : List Nat := flattenRuns (rleEncode bs)

/-- The inverse pipe applied when reading a compressed dump back. -/
def gzipDecompress (bs : List Nat) : List Nat := rleDecode (parseRuns bs)

lemma parseRuns_flattenRuns (rs : List (Nat × Nat)) : parseRuns (flattenRuns rs) = rs := by
  induction rs with
  | nil => rfl
  | cons r t ih =>
    obtain ⟨c, n⟩ := r
    simp [flattenRuns, parseRuns, ih]

lemma rleDecode_rleEncode (l : List Nat) : rleDecode (rleEncode l) = l := by
  induction l with
  | nil => rfl
  | cons c rest ih =>
    cases h : rleEncode rest with
    | nil =>
      rw [h] at ih
      simp only [rleDecode] at ih
      simp [rleEncode, h, rleDecode, ← ih]
    | cons r t =>
      obtain ⟨d, n⟩ := r
      rw [h] at ih
      by_cases hcd : c = d
      · subst hcd
        simp only [rleEncode, h, if_pos rfl, rleDecode, List.replicate_succ,
          List.cons_append] at ih ⊢
        rw [ih]
      · simp only [rleEncode, h, if_neg hcd, rleDecode, List.replicate_succ,
          List.replicate_zero, List.nil_append, List.cons_append] at ih ⊢
        rw [ih]

/-- Modelled from the spec: the bytes of the finalized output file of one run;
with `compress=true` the fragment stream is piped through the compressor before
reaching the file sink. -/
def fileBytes (b : Nat) (compressFlag : Bool) (units : List UnitSpec) : List Nat :=
  if compressFlag then
    gzipCompress (((engineRun b units none).fragments.flatten).map Char.toNat)
  else
    ((engineRun b units none).fragments.flatten).map Char.toNat

/-- C8: decompressing the output file produced with `compress=true` yields a
byte sequence identical to the output file produced with `compress=false`, for
the same input and unit ordering. -/
theorem compression_round_trip (b : Nat) (units : List UnitSpec) :
    gzipDecompress (fileBytes b true units) = fileBytes b false units := by
  have h : fileBytes b true units = gzipCompress (fileBytes b false units) := rfl
  rw [h, gzipCompress, gzipDecompress, parseRuns_flattenRuns, rleDecode_rleEncode]

end Dumper
